import Mathlib

/-!
Verification of the postgres-legacy warehouse integration
(`warehouse/integrations/postgres-legacy/postgres.go`).

The Go source is shallowly embedded as executable Lean definitions:

* CSV field decoding, the per-file bulk-copy loop and the column-count
  check are translated from the body of `loadTable`.
* The dedup DELETE / INSERT SQL executed by `loadTable` is embedded as
  list transformations over rows (a row is a list of nullable string
  fields aligned with a column-name list); SQL `NULL` is `Option.none`,
  SQL equality in WHERE clauses is null-rejecting, `PARTITION BY` groups
  nulls together, and `ORDER BY received_at DESC` orders the timestamp
  strings lexicographically (ISO-8601 timestamps compare chronologically)
  with SQL's default `NULLS FIRST` for descending order.
* Database state is an association list from table name to row list;
  a transaction is modelled by applying its writes only on the commit
  path, and a rollback by returning the pre-transaction state.
* Failures of individual database or file-system operations are injected
  through explicit boolean/optional parameters, one per operation the Go
  code checks, so every `if err != nil` branch of the source is a branch
  of the model.
-/

namespace PostgresLegacy

/-! ### Table-name constants

Modelled from the spec: `warehouseutils.UsersTable`,
`warehouseutils.IdentifiesTable` and `warehouseutils.DiscardsTable` are
defined outside this file; they are the fixed names of the users,
identifies and discards tables. -/

def usersTable : String := "users"

def identifiesTable : String := "identifies"

def discardsTable : String := "rudder_discards"

/-! ### CSV field decoding (`loadTable`, lines 454-461)

```go
for _, value := range record {
    if strings.TrimSpace(value) == "" {
        recordInterface = append(recordInterface, nil)
    } else {
        recordInterface = append(recordInterface, value)
    }
}
```
`strings.TrimSpace` removes leading and trailing Unicode whitespace; a
field that trims to the empty string becomes SQL NULL (`none`), any
other field is passed through unchanged. -/

/-- Go's `unicode.IsSpace`, the whitespace predicate used by
`strings.TrimSpace`: the Unicode White_Space property, i.e.
U+0009-U+000D, U+0020, U+0085, U+00A0, U+1680, U+2000-U+200A, U+2028,
U+2029, U+202F, U+205F and U+3000. -/
def isSpaceChar (c : Char) : Bool :=
  (decide (0x09 ≤ c.toNat) && decide (c.toNat ≤ 0x0D)) || c.toNat == 0x20
    || c.toNat == 0x85 || c.toNat == 0xA0 || c.toNat == 0x1680
    || (decide (0x2000 ≤ c.toNat) && decide (c.toNat ≤ 0x200A))
    || c.toNat == 0x2028 || c.toNat == 0x2029 || c.toNat == 0x202F
    || c.toNat == 0x205F || c.toNat == 0x3000

def trimSpace (l : List Char) : List Char :=
  ((l.dropWhile isSpaceChar).reverse.dropWhile isSpaceChar).reverse

def decodeField (value : String) : Option String :=
  if trimSpace value.toList = [] then none else some value

/-! ### Error classifier (`errorsMappings`, lines 65-106; `ErrorMappings`, line 1090)

Each `regexp.MustCompile` pattern in the source is of the shape
`lit₁ .* lit₂ .* …` (literal segments separated by `.*`, no other
metacharacters), and Go's `MatchString` is an unanchored search, so a
text matches exactly when the literal segments occur in order.  A
pattern is therefore embedded as its list of literal segments. -/

inductive JobErrorType where
  | resourceNotFound
  | permission
  | columnCount
  | unclassified
  deriving DecidableEq, Repr

structure JobError where
  type : JobErrorType
  format : List (List Char)
  deriving DecidableEq, Repr

/-- Does `pat` occur as a prefix of `s`? -/
def litHere : List Char → List Char → Bool
  | [], _ => true
  | _ :: _, [] => false
  | a :: as, b :: bs => a == b && litHere as bs

/-- Drop everything up to and including the first occurrence of `pat`
in `s`; `none` when `pat` does not occur. -/
def dropLit (pat : List Char) : List Char → Option (List Char)
  | [] => if pat = [] then some [] else none
  | c :: cs => if litHere pat (c :: cs) then some ((c :: cs).drop pat.length) else dropLit pat cs

/-- A text matches a segment list when the segments occur in order. -/
def matchSegs : List (List Char) → List Char → Bool
  | [], _ => true
  | seg :: rest, s =>
    match dropLit seg s with
    | some s' => matchSegs rest s'
    | none => false

def errorsMappings : List JobError :=
  [ { type := .resourceNotFound,
      format := ["dial tcp: lookup ".toList, ": no such host".toList] },
    { type := .permission,
      format := ["dial tcp ".toList, " connect: connection refused".toList] },
    { type := .resourceNotFound,
      format := ["pq: database ".toList, " does not exist".toList] },
    { type := .resourceNotFound,
      format := ["pq: the database system is starting up".toList] },
    { type := .resourceNotFound,
      format := ["pq: the database system is shutting down".toList] },
    { type := .resourceNotFound,
      format := ["pq: relation ".toList, " does not exist".toList] },
    { type := .resourceNotFound,
      format := ["pq: cannot set transaction read-write mode during recovery".toList] },
    { type := .columnCount,
      format := ["pq: tables can have at most 1600 columns".toList] },
    { type := .permission,
      format := ["pq: password authentication failed for user".toList] },
    { type := .permission,
      format := ["pq: permission denied".toList] } ]

/-- `ErrorMappings` accessor (line 1090): returns the fixed table. -/
def ErrorMappings : List JobError := errorsMappings

/-- Modelled from the spec: the caller consults the ordered table
first-match-wins; a failure text matching no pattern yields an
unclassified kind.  (The matching driver lives outside this file; only
the table itself is in the source.) -/
def classify (text : String) : JobErrorType :=
  match ErrorMappings.find? (fun je => matchSegs je.format text.toList) with
  | some je => je.type
  | none => .unclassified

/-! ### Dedup key configuration (lines 180-190)

```go
var primaryKeyMap = map[string]string{ users: "id", identifies: "id", discards: "row_id" }
var partitionKeyMap = map[string]string{ users: "id", identifies: "id",
                                         discards: "row_id, column_name, table_name" }
```
with default `"id"` for any other table (lines 484-491). -/

def primaryKeyMap : List (String × String) :=
  [(usersTable, "id"), (identifiesTable, "id"), (discardsTable, "row_id")]

def partitionKeyMap : List (String × String) :=
  [(usersTable, "id"), (identifiesTable, "id"), (discardsTable, "row_id, column_name, table_name")]

def primaryKeyFor (tableName : String) : String :=
  (primaryKeyMap.lookup tableName).getD "id"

/-- The column list denoted by the `partitionKeyMap` SQL fragment: the
comma-separated identifiers of the partition key (lines 186-190, 513). -/
def partitionColsOf (tableName : String) : List String :=
  if tableName = discardsTable then ["row_id", "column_name", "table_name"] else ["id"]

/-! ### Rows and SQL value semantics

A table row is a list of nullable string fields, positionally aligned
with a column-name list (the sorted upload-schema columns used by the
`pq.CopyInSchema` statement, line 406). -/

abbrev DbRow := List (Option String)

/-- Index of a column name in the column list. -/
def colIdx (cols : List String) (c : String) : Nat :=
  match cols with
  | [] => 0
  | x :: xs => if x = c then 0 else colIdx xs c + 1

/-- Value of column `c` in row `r` (NULL when the column is absent). -/
def getField (cols : List String) (r : DbRow) (c : String) : Option String :=
  match r.get? (colIdx cols c) with
  | some v => v
  | none => none

/-- SQL `=` in a WHERE clause: true only on two equal non-NULL values. -/
def sqlEqB : Option String → Option String → Bool
  | some a, some b => a == b
  | _, _ => false

/-- Lexicographic comparison of timestamp strings (ISO-8601 timestamps
compare chronologically). -/
def strLeB : List Char → List Char → Bool
  | [], _ => true
  | _ :: _, [] => false
  | x :: xs, y :: ys =>
    if x.toNat < y.toNat then true
    else if y.toNat < x.toNat then false
    else strLeB xs ys

/-- Ordering used by `ORDER BY received_at DESC`: NULL sorts first in a
descending order (Postgres default `NULLS FIRST`), i.e. NULL is
greatest. -/
def optTsLe : Option String → Option String → Bool
  | _, none => true
  | none, some _ => false
  | some a, some b => strLeB a.toList b.toList

/-! ### Generic merge machinery (the SQL of lines 483-528)

`DELETE FROM dest USING staging _source WHERE <match>` and
`INSERT INTO dest SELECT … WHERE row_number() OVER
 (PARTITION BY <partitionKey> ORDER BY received_at DESC) = 1`. -/

/-- One insertion step of a stable insertion sort into a descending
list: `r` goes after every element it does not exceed. -/
def insertDesc {ρ : Type} (le : ρ → ρ → Bool) (r : ρ) : List ρ → List ρ
  | [] => [r]
  | x :: xs => if le r x then x :: insertDesc le r xs else r :: x :: xs

/-- Sort descending with respect to `le`. -/
def sortDesc {ρ : Type} (le : ρ → ρ → Bool) (l : List ρ) : List ρ :=
  l.foldr (insertDesc le) []

/-- Keep the first row of each partition group: the rows whose
`row_number()` over their partition is 1, given the list is already
ordered within partitions. -/
def keepFirstByPart {ρ π : Type} [DecidableEq π] (part : ρ → π) :
    List ρ → List π → List ρ
  | [], _ => []
  | r :: rs, seen =>
    if part r ∈ seen then keepFirstByPart part rs seen
    else r :: keepFirstByPart part rs (part r :: seen)

/-- The DELETE: destination rows survive unless some staging row
matches them. -/
def deleteStep {ρ : Type} (mt : ρ → ρ → Bool) (dest staging : List ρ) : List ρ :=
  dest.filter fun d => !(staging.any fun s => mt s d)

/-- The join condition of the dedup DELETE (lines 492-496): primary-key
equality, plus `table_name`/`column_name` equality for the discards
table. -/
def destMatch (tableName : String) (cols : List String) (s d : DbRow) : Bool :=
  sqlEqB (getField cols s (primaryKeyFor tableName)) (getField cols d (primaryKeyFor tableName))
    && (if tableName = discardsTable then
          sqlEqB (getField cols s "table_name") (getField cols d "table_name")
            && sqlEqB (getField cols s "column_name") (getField cols d "column_name")
        else true)

/-- Timestamp of a row: its `received_at` column. -/
def rowTs (cols : List String) (r : DbRow) : Option String :=
  getField cols r "received_at"

/-- Partition value of a row for ranking (`PARTITION BY` groups NULLs
together, hence plain equality of the value lists). -/
def partValue (tableName : String) (cols : List String) (r : DbRow) : List (Option String) :=
  (partitionColsOf tableName).map (getField cols r)

/-- The INSERT of lines 511-515: rows of the staging table ranked first
when partitioning by the partition key and ordering by `received_at`
descending. -/
def insertStep (tableName : String) (cols : List String) (staging : List DbRow) : List DbRow :=
  keepFirstByPart (partValue tableName cols)
    (sortDesc (fun a b => optTsLe (rowTs cols a) (rowTs cols b)) staging) []

/-- Net effect of the dedup DELETE + INSERT on the destination table. -/
def mergeStaged (tableName : String) (cols : List String) (dest staging : List DbRow) :
    List DbRow :=
  deleteStep (destMatch tableName cols) dest staging ++ insertStep tableName cols staging

/-! ### Order lemmas for the timestamp comparison -/

theorem strLeB_refl (a : List Char) : strLeB a a = true := by
  induction a with
  | nil => rfl
  | cons x xs ih => simp [strLeB, ih]

theorem strLeB_total (a b : List Char) : strLeB a b = true ∨ strLeB b a = true := by
  induction a generalizing b with
  | nil => exact Or.inl rfl
  | cons x xs ih =>
    cases b with
    | nil => exact Or.inr rfl
    | cons y ys =>
      simp only [strLeB]
      rcases Nat.lt_trichotomy x.toNat y.toNat with h | h | h
      · left; simp [h]
      · have h1 : ¬ x.toNat < y.toNat := by omega
        have h2 : ¬ y.toNat < x.toNat := by omega
        simpa [h1, h2] using ih ys
      · right; simp [h]

theorem strLeB_trans (a b c : List Char) (hab : strLeB a b = true) (hbc : strLeB b c = true) :
    strLeB a c = true := by
  induction a generalizing b c with
  | nil => rfl
  | cons x xs ih =>
    cases b with
    | nil => simp [strLeB] at hab
    | cons y ys =>
      cases c with
      | nil => simp [strLeB] at hbc
      | cons z zs =>
        simp only [strLeB] at hab hbc ⊢
        rcases Nat.lt_trichotomy x.toNat y.toNat with h1 | h1 | h1
        · rcases Nat.lt_trichotomy y.toNat z.toNat with h2 | h2 | h2
          · rw [if_pos (show x.toNat < z.toNat by omega)]
          · rw [if_pos (show x.toNat < z.toNat by omega)]
          · rw [if_neg (show ¬ y.toNat < z.toNat by omega), if_pos h2] at hbc
            exact absurd hbc (by simp)
        · rcases Nat.lt_trichotomy y.toNat z.toNat with h2 | h2 | h2
          · rw [if_pos (show x.toNat < z.toNat by omega)]
          · rw [if_neg (show ¬ x.toNat < y.toNat by omega),
                if_neg (show ¬ y.toNat < x.toNat by omega)] at hab
            rw [if_neg (show ¬ y.toNat < z.toNat by omega),
                if_neg (show ¬ z.toNat < y.toNat by omega)] at hbc
            rw [if_neg (show ¬ x.toNat < z.toNat by omega),
                if_neg (show ¬ z.toNat < x.toNat by omega)]
            exact ih ys zs hab hbc
          · rw [if_neg (show ¬ y.toNat < z.toNat by omega), if_pos h2] at hbc
            exact absurd hbc (by simp)
        · rw [if_neg (show ¬ x.toNat < y.toNat by omega), if_pos h1] at hab
          exact absurd hab (by simp)

theorem optTsLe_refl (a : Option String) : optTsLe a a = true := by
  cases a with
  | none => rfl
  | some s => simpa [optTsLe] using strLeB_refl s.toList

theorem optTsLe_total (a b : Option String) : optTsLe a b = true ∨ optTsLe b a = true := by
  cases a with
  | none => cases b with
    | none => exact Or.inl rfl
    | some s => exact Or.inr rfl
  | some s => cases b with
    | none => exact Or.inl rfl
    | some t => simpa [optTsLe] using strLeB_total s.toList t.toList

theorem optTsLe_trans (a b c : Option String) (hab : optTsLe a b = true)
    (hbc : optTsLe b c = true) : optTsLe a c = true := by
  cases c with
  | none => cases a <;> rfl
  | some z =>
    cases b with
    | none => simp [optTsLe] at hbc
    | some y =>
      cases a with
      | none => simp [optTsLe] at hab
      | some x => exact strLeB_trans x.toList y.toList z.toList hab hbc

/-! ### Lemmas about the generic merge machinery -/

section Generic

variable {ρ π : Type} (le : ρ → ρ → Bool)

theorem mem_insertDesc (r a : ρ) (l : List ρ) :
    a ∈ insertDesc le r l ↔ a = r ∨ a ∈ l := by
  induction l with
  | nil => simp [insertDesc]
  | cons x xs ih =>
    simp only [insertDesc]
    by_cases h : le r x = true
    · rw [if_pos h]
      simp only [List.mem_cons, ih]
      tauto
    · rw [if_neg h]
      simp only [List.mem_cons]

theorem mem_sortDesc (a : ρ) (l : List ρ) : a ∈ sortDesc le l ↔ a ∈ l := by
  induction l with
  | nil => simp [sortDesc]
  | cons x xs ih =>
    show a ∈ insertDesc le x (sortDesc le xs) ↔ _
    rw [mem_insertDesc]
    simp [ih]

theorem pairwise_insertDesc
    (htot : ∀ a b, le a b = true ∨ le b a = true)
    (htr : ∀ a b c, le a b = true → le b c = true → le a c = true)
    (r : ρ) (l : List ρ) (h : l.Pairwise (fun a b => le b a = true)) :
    (insertDesc le r l).Pairwise (fun a b => le b a = true) := by
  induction l with
  | nil => simp [insertDesc]
  | cons x xs ih =>
    rw [List.pairwise_cons] at h
    obtain ⟨hx, hxs⟩ := h
    simp only [insertDesc]
    by_cases hle : le r x = true
    · rw [if_pos hle, List.pairwise_cons]
      refine ⟨?_, ih hxs⟩
      intro b hb
      rcases (mem_insertDesc le r b xs).mp hb with rfl | hb'
      · exact hle
      · exact hx b hb'
    · have hxr : le x r = true := (htot r x).resolve_left hle
      rw [if_neg hle, List.pairwise_cons]
      refine ⟨?_, List.Pairwise.cons hx hxs⟩
      intro b hb
      rcases List.mem_cons.mp hb with rfl | hb'
      · exact hxr
      · exact htr b x r (hx b hb') hxr

theorem pairwise_sortDesc
    (htot : ∀ a b, le a b = true ∨ le b a = true)
    (htr : ∀ a b c, le a b = true → le b c = true → le a c = true)
    (l : List ρ) : (sortDesc le l).Pairwise (fun a b => le b a = true) := by
  induction l with
  | nil => simp [sortDesc]
  | cons x xs ih => exact pairwise_insertDesc le htot htr x (sortDesc le xs) ih

variable [DecidableEq π] (part : ρ → π)

theorem mem_keepFirstByPart (a : ρ) :
    ∀ (l : List ρ) (seen : List π), a ∈ keepFirstByPart part l seen → a ∈ l := by
  intro l
  induction l with
  | nil => intro seen h; simp [keepFirstByPart] at h
  | cons r rs ih =>
    intro seen h
    simp only [keepFirstByPart] at h
    by_cases hm : part r ∈ seen
    · exact List.mem_cons_of_mem _ (ih seen (by simpa [hm] using h))
    · rw [if_neg hm] at h
      rcases List.mem_cons.mp h with rfl | h'
      · exact List.mem_cons_self _ _
      · exact List.mem_cons_of_mem _ (ih _ h')

theorem keepFirst_filter_seen (p : π) :
    ∀ (l : List ρ) (seen : List π), p ∈ seen →
      (keepFirstByPart part l seen).filter (fun x => decide (part x = p)) = [] := by
  intro l
  induction l with
  | nil => intro seen _; rfl
  | cons r rs ih =>
    intro seen hp
    simp only [keepFirstByPart]
    by_cases hm : part r ∈ seen
    · rw [if_pos hm]; exact ih seen hp
    · rw [if_neg hm]
      have hrp : ¬ part r = p := fun h => hm (h ▸ hp)
      rw [List.filter_cons_of_neg (by simpa using hrp)]
      exact ih _ (List.mem_cons_of_mem _ hp)

theorem keepFirst_filter_not_seen (p : π) :
    ∀ (l : List ρ) (seen : List π), p ∉ seen →
      (keepFirstByPart part l seen).filter (fun x => decide (part x = p))
        = (l.filter (fun x => decide (part x = p))).take 1 := by
  intro l
  induction l with
  | nil => intro seen _; rfl
  | cons r rs ih =>
    intro seen hp
    simp only [keepFirstByPart]
    by_cases hm : part r ∈ seen
    · have hrp : ¬ part r = p := fun h => hp (h ▸ hm)
      rw [if_pos hm, ih seen hp, List.filter_cons_of_neg (by simpa using hrp)]
    · rw [if_neg hm]
      by_cases hrp : part r = p
      · subst hrp
        rw [List.filter_cons_of_pos (by simp), List.filter_cons_of_pos (by simp)]
        rw [keepFirst_filter_seen part (part r) rs (part r :: seen) (List.mem_cons_self _ _)]
        simp
      · rw [List.filter_cons_of_neg (by simpa using hrp),
            List.filter_cons_of_neg (by simpa using hrp)]
        have hps : p ∉ part r :: seen := by
          intro hc
          rcases List.mem_cons.mp hc with hc | hc
          · exact hrp hc.symm
          · exact hp hc
        exact ih _ hps

end Generic

/-! ### Key-configuration and delete-step lemmas -/

theorem primaryKeyFor_not_discards (t : String) (ht : t ≠ discardsTable) :
    primaryKeyFor t = "id" := by
  unfold primaryKeyFor primaryKeyMap
  rcases eq_or_ne t usersTable with h | h
  · subst h; rfl
  · rcases eq_or_ne t identifiesTable with h2 | h2
    · subst h2; rfl
    · have e1 : (t == usersTable) = false := beq_eq_false_iff_ne.mpr h
      have e2 : (t == identifiesTable) = false := beq_eq_false_iff_ne.mpr h2
      have e3 : (t == discardsTable) = false := beq_eq_false_iff_ne.mpr ht
      simp [List.lookup, e1, e2, e3]

theorem primaryKeyFor_discards : primaryKeyFor discardsTable = "row_id" := by
  decide

theorem sqlEqB_eq_true (a b : Option String) :
    sqlEqB a b = true ↔ ∃ v, a = some v ∧ b = some v := by
  cases a with
  | none => simp [sqlEqB]
  | some x =>
    cases b with
    | none => simp [sqlEqB]
    | some y =>
      simp only [sqlEqB, beq_iff_eq, Option.some.injEq]
      constructor
      · intro h; exact ⟨x, rfl, h.symm⟩
      · rintro ⟨v, rfl, rfl⟩; rfl

theorem mem_deleteStep {ρ : Type} (mt : ρ → ρ → Bool) (dest staging : List ρ) (d : ρ) :
    d ∈ deleteStep mt dest staging ↔ d ∈ dest ∧ ∀ s ∈ staging, ¬ mt s d = true := by
  simp [deleteStep, List.mem_filter]

theorem not_mem_deleteStep {ρ : Type} (mt : ρ → ρ → Bool) (dest staging : List ρ) (d : ρ)
    (hd : d ∈ dest) :
    d ∉ deleteStep mt dest staging ↔ ∃ s ∈ staging, mt s d = true := by
  rw [mem_deleteStep]
  constructor
  · intro h
    by_contra hc
    push_neg at hc
    exact h ⟨hd, fun s hs => hc s hs⟩
  · rintro ⟨s, hs, hmt⟩ ⟨_, hall⟩
    exact hall s hs hmt

/-- Every destination row carrying the primary-key value `v` is removed
by the dedup DELETE when some staging row carries it too. -/
theorem deleteStep_filter_nil (t : String) (cols : List String) (dest staging : List DbRow)
    (v : String) (ht : t ≠ discardsTable)
    (hk : ∃ s ∈ staging, getField cols s "id" = some v) :
    (deleteStep (destMatch t cols) dest staging).filter
      (fun x => decide (getField cols x "id" = some v)) = [] := by
  rw [List.filter_eq_nil_iff]
  intro d hd
  simp only [decide_eq_true_eq]
  intro hdv
  obtain ⟨s, hs, hsv⟩ := hk
  have hmem := (mem_deleteStep _ _ _ d).mp hd
  have hmatch : destMatch t cols s d = true := by
    unfold destMatch
    rw [primaryKeyFor_not_discards t ht, hsv, hdv, if_neg ht]
    simp [sqlEqB]
  exact hmem.2 s hs hmatch

/-- The INSERT of lines 511-515 contributes, for each primary-key value
present in the staging table, exactly the staging row of that key with
the greatest `received_at`. -/
theorem insertStep_filter_eq (t : String) (cols : List String) (staging : List DbRow)
    (v : String) (ht : t ≠ discardsTable)
    (hk : ∃ s ∈ staging, getField cols s "id" = some v) :
    ∃ r, (insertStep t cols staging).filter
            (fun x => decide (getField cols x "id" = some v)) = [r]
      ∧ r ∈ staging ∧ getField cols r "id" = some v
      ∧ ∀ s ∈ staging, getField cols s "id" = some v →
          optTsLe (rowTs cols s) (rowTs cols r) = true := by
  classical
  set le : DbRow → DbRow → Bool := fun a b => optTsLe (rowTs cols a) (rowTs cols b) with hle
  have htot : ∀ a b : DbRow, le a b = true ∨ le b a = true :=
    fun a b => optTsLe_total _ _
  have htr : ∀ a b c : DbRow, le a b = true → le b c = true → le a c = true :=
    fun a b c => optTsLe_trans _ _ _
  set L := sortDesc le staging with hL
  have hpart : ∀ x : DbRow, partValue t cols x = [getField cols x "id"] := by
    intro x; unfold partValue partitionColsOf; rw [if_neg ht]; rfl
  have hcong : ∀ l : List DbRow,
      l.filter (fun x => decide (partValue t cols x = [some v]))
        = l.filter (fun x => decide (getField cols x "id" = some v)) := by
    intro l
    apply List.filter_congr
    intro x _
    rw [hpart]
    exact decide_eq_decide.mpr (by simp)
  have hinsert : (insertStep t cols staging).filter
      (fun x => decide (getField cols x "id" = some v))
        = (L.filter (fun x => decide (getField cols x "id" = some v))).take 1 := by
    unfold insertStep
    rw [← hcong,
        keepFirst_filter_not_seen (partValue t cols) [some v] (sortDesc le staging) [] (by simp),
        hcong]
  obtain ⟨s₀, hs₀, hs₀v⟩ := hk
  have hs₀L : s₀ ∈ L := (mem_sortDesc le s₀ staging).mpr hs₀
  have hs₀F : s₀ ∈ L.filter (fun x => decide (getField cols x "id" = some v)) :=
    List.mem_filter.mpr ⟨hs₀L, by simp [hs₀v]⟩
  rcases hF : L.filter (fun x => decide (getField cols x "id" = some v)) with _ | ⟨r, F'⟩
  · rw [hF] at hs₀F; simp at hs₀F
  · have hrF : r ∈ L.filter (fun x => decide (getField cols x "id" = some v)) := by
      rw [hF]; exact List.mem_cons_self r F'
    have hrL : r ∈ L := (List.mem_filter.mp hrF).1
    refine ⟨r, ?_, (mem_sortDesc le r staging).mp hrL, ?_, ?_⟩
    · rw [hinsert, hF]; rfl
    · have := (List.mem_filter.mp hrF).2
      simpa using this
    · intro s hs hsv
      have hsL : s ∈ L := (mem_sortDesc le s staging).mpr hs
      have hsF : s ∈ L.filter (fun x => decide (getField cols x "id" = some v)) :=
        List.mem_filter.mpr ⟨hsL, by simp [hsv]⟩
      have hpair : (L.filter (fun x => decide (getField cols x "id" = some v))).Pairwise
          (fun a b => le b a = true) :=
        (pairwise_sortDesc le htot htr staging).filter _
      rw [hF] at hsF hpair
      rcases List.mem_cons.mp hsF with rfl | hsF'
      · exact optTsLe_refl _
      · exact (List.pairwise_cons.mp hpair).1 s hsF'

/-- C1: after the staging table is populated, the dedup DELETE removes
every destination row whose primary key appears in the staging table
and the INSERT adds only the rows ranked first per partition key by
`received_at` descending; hence for staging input with duplicate keys
and pairwise-distinct recency timestamps the destination ends with
exactly one row per staged key, the row with the maximum
`received_at`. -/
theorem loadTable_dedup_keeps_max_received_at
    (tableName : String) (cols : List String) (dest staging : List DbRow) (v : String)
    (ht : tableName ≠ discardsTable)
    (_hdist : staging.Pairwise (fun a b => rowTs cols a ≠ rowTs cols b))
    (hk : ∃ s ∈ staging, getField cols s "id" = some v) :
    ∃ r, (mergeStaged tableName cols dest staging).filter
            (fun x => decide (getField cols x "id" = some v)) = [r]
      ∧ r ∈ staging ∧ getField cols r "id" = some v
      ∧ ∀ s ∈ staging, getField cols s "id" = some v →
          optTsLe (rowTs cols s) (rowTs cols r) = true := by
  obtain ⟨r, hr1, hr2, hr3, hr4⟩ := insertStep_filter_eq tableName cols staging v ht hk
  refine ⟨r, ?_, hr2, hr3, hr4⟩
  unfold mergeStaged
  rw [List.filter_append, deleteStep_filter_nil tableName cols dest staging v ht hk, hr1]
  rfl

/-- C1 witness: two staged rows with the same `id` and distinct
timestamps; the merge of an empty destination keeps exactly the later
one. -/
theorem loadTable_dedup_keeps_max_received_at_witness :
    ∃ r, (mergeStaged "pages" ["id", "received_at", "val"] []
            [[some "1", some "2021-01-02", some "b"],
             [some "1", some "2021-01-01", some "a"]]).filter
            (fun x => decide (getField ["id", "received_at", "val"] x "id" = some "1")) = [r]
      ∧ r ∈ [[some "1", some "2021-01-02", some "b"],
             [some "1", some "2021-01-01", some "a"]]
      ∧ getField ["id", "received_at", "val"] r "id" = some "1"
      ∧ ∀ s ∈ [[some "1", some "2021-01-02", some "b"],
               [some "1", some "2021-01-01", some "a"]],
          getField ["id", "received_at", "val"] s "id" = some "1" →
            optTsLe (rowTs ["id", "received_at", "val"] s)
              (rowTs ["id", "received_at", "val"] r) = true :=
  loadTable_dedup_keeps_max_received_at "pages" ["id", "received_at", "val"] []
    [[some "1", some "2021-01-02", some "b"], [some "1", some "2021-01-01", some "a"]]
    "1" (by decide) (by decide)
    ⟨[some "1", some "2021-01-02", some "b"], by decide, by decide⟩

/-- C8: the dedup DELETE removes a destination row exactly when a
staging row matches its primary key; for the discards table the match
additionally requires equal `table_name` and `column_name`. -/
theorem loadTable_delete_condition
    (tableName : String) (cols : List String) (dest staging : List DbRow) (d : DbRow)
    (hd : d ∈ dest) :
    (tableName ≠ discardsTable →
      (d ∉ deleteStep (destMatch tableName cols) dest staging ↔
        ∃ s ∈ staging, ∃ v,
          getField cols s "id" = some v ∧ getField cols d "id" = some v))
    ∧ (d ∉ deleteStep (destMatch discardsTable cols) dest staging ↔
        ∃ s ∈ staging,
          (∃ v, getField cols s "row_id" = some v ∧ getField cols d "row_id" = some v)
          ∧ (∃ tn, getField cols s "table_name" = some tn
              ∧ getField cols d "table_name" = some tn)
          ∧ (∃ cn, getField cols s "column_name" = some cn
              ∧ getField cols d "column_name" = some cn)) := by
  constructor
  · intro hne
    rw [not_mem_deleteStep _ _ _ _ hd]
    constructor
    · rintro ⟨s, hs, hm⟩
      unfold destMatch at hm
      rw [primaryKeyFor_not_discards tableName hne, if_neg hne, Bool.and_true] at hm
      exact ⟨s, hs, (sqlEqB_eq_true _ _).mp hm⟩
    · rintro ⟨s, hs, hv⟩
      refine ⟨s, hs, ?_⟩
      unfold destMatch
      rw [primaryKeyFor_not_discards tableName hne, if_neg hne, Bool.and_true]
      exact (sqlEqB_eq_true _ _).mpr hv
  · rw [not_mem_deleteStep _ _ _ _ hd]
    constructor
    · rintro ⟨s, hs, hm⟩
      unfold destMatch at hm
      rw [primaryKeyFor_discards, if_pos rfl, Bool.and_eq_true, Bool.and_eq_true] at hm
      obtain ⟨h1, h2, h3⟩ := hm
      exact ⟨s, hs, (sqlEqB_eq_true _ _).mp h1, (sqlEqB_eq_true _ _).mp h2,
        (sqlEqB_eq_true _ _).mp h3⟩
    · rintro ⟨s, hs, h1, h2, h3⟩
      refine ⟨s, hs, ?_⟩
      unfold destMatch
      rw [primaryKeyFor_discards, if_pos rfl, Bool.and_eq_true, Bool.and_eq_true]
      exact ⟨(sqlEqB_eq_true _ _).mpr h1, (sqlEqB_eq_true _ _).mpr h2,
        (sqlEqB_eq_true _ _).mpr h3⟩

/-- C8 witness: a destination row sharing only the `row_id` of a
discards staging row but a different `column_name` is not deleted from
the discards table, while the same key match does delete from an
ordinary table. -/
theorem loadTable_delete_condition_witness :
    ("tracks" ≠ discardsTable →
      ([some "1", some "c1", some "t1"] ∉
          deleteStep (destMatch "tracks" ["row_id", "column_name", "table_name"])
            [[some "1", some "c1", some "t1"]] [[some "1", some "c2", some "t1"]] ↔
        ∃ s ∈ [[some "1", some "c2", some "t1"]], ∃ v,
          getField ["row_id", "column_name", "table_name"] s "id" = some v
          ∧ getField ["row_id", "column_name", "table_name"]
              [some "1", some "c1", some "t1"] "id" = some v))
    ∧ ([some "1", some "c1", some "t1"] ∉
          deleteStep (destMatch discardsTable ["row_id", "column_name", "table_name"])
            [[some "1", some "c1", some "t1"]] [[some "1", some "c2", some "t1"]] ↔
        ∃ s ∈ [[some "1", some "c2", some "t1"]],
          (∃ v, getField ["row_id", "column_name", "table_name"] s "row_id" = some v
            ∧ getField ["row_id", "column_name", "table_name"]
                [some "1", some "c1", some "t1"] "row_id" = some v)
          ∧ (∃ tn, getField ["row_id", "column_name", "table_name"] s "table_name" = some tn
              ∧ getField ["row_id", "column_name", "table_name"]
                  [some "1", some "c1", some "t1"] "table_name" = some tn)
          ∧ (∃ cn, getField ["row_id", "column_name", "table_name"] s "column_name" = some cn
              ∧ getField ["row_id", "column_name", "table_name"]
                  [some "1", some "c1", some "t1"] "column_name" = some cn)) :=
  loadTable_delete_condition "tracks" ["row_id", "column_name", "table_name"]
    [[some "1", some "c1", some "t1"]] [[some "1", some "c2", some "t1"]]
    [some "1", some "c1", some "t1"] (by decide)

/-! ### C3: blank fields decode to NULL -/

theorem trimSpace_eq_nil_iff (l : List Char) :
    trimSpace l = [] ↔ (∀ c ∈ l, isSpaceChar c = true) := by
  unfold trimSpace
  rw [List.reverse_eq_nil_iff, List.dropWhile_eq_nil_iff]
  constructor
  · intro h c hc
    rw [← List.takeWhile_append_dropWhile (p := isSpaceChar) (l := l)] at hc
    rcases List.mem_append.mp hc with h1 | h1
    · exact List.mem_takeWhile_imp h1
    · exact h c (List.mem_reverse.mpr h1)
  · intro h c hc
    exact h c ((List.dropWhile_sublist (l := l) isSpaceChar).subset (List.mem_reverse.mp hc))

/-- C3: a decoded field is NULL exactly when it is empty or all
whitespace, and is otherwise the literal string value unchanged. -/
theorem decodeField_blank_iff_null (value : String) :
    decodeField value = if value.toList.all isSpaceChar then none else some value := by
  unfold decodeField
  by_cases h : trimSpace value.toList = []
  · rw [if_pos h, if_pos]
    rw [List.all_eq_true]
    exact (trimSpace_eq_nil_iff _).mp h
  · rw [if_neg h, if_neg]
    intro hc
    rw [List.all_eq_true] at hc
    exact h ((trimSpace_eq_nil_iff _).mpr hc)

/-! ### The `loadTable` control flow (lines 361-539)

The staged state is an association list from table name to rows.
Failure of each database or file operation the Go code checks is
injected by a corresponding flag; a rollback returns the
pre-transaction schema (the staging table is created inside the
transaction, so it is never visible in a rolled-back schema), and the
deferred `dropStagingTable` of lines 402-404 — registered only once the
staging table was created, and only when `skipTempTableDelete` is unset
— removes the staging table on every return path after creation. -/

inductive LoadErr where
  | searchPath
  | download
  | beginTx
  | createStaging
  | copyInPrepare
  | fileOpen
  | gzipRead
  | csvMismatch (csvColumns schemaColumns processedRows : Nat)
  | flushCopy
  | deleteDedup
  | insertDedup
  | commitTx
  deriving DecidableEq, Repr

structure LTFile where
  openOk : Bool
  gzipOk : Bool
  rows : List (List String)
  deriving DecidableEq, Repr

structure LTEnv where
  searchPathOk : Bool
  downloadOk : Bool
  beginOk : Bool
  createOk : Bool
  prepareOk : Bool
  flushOk : Bool
  deleteOk : Bool
  insertOk : Bool
  commitOk : Bool
  deriving DecidableEq, Repr

abbrev Schema := List (String × List DbRow)

def getTable (st : Schema) (name : String) : List DbRow :=
  (st.lookup name).getD []

def setTable (st : Schema) (name : String) (rows : List DbRow) : Schema :=
  match st with
  | [] => [(name, rows)]
  | p :: ps => if p.1 = name then (name, rows) :: ps else p :: setTable ps name rows

/-- `DROP TABLE IF EXISTS` (line 741). -/
def dropTable (st : Schema) (name : String) : Schema :=
  st.filter fun p => p.1 != name

/-- The deferred `dropStagingTable` call: a no-op when the caller asked
to skip staging-table cleanup (lines 402-404). -/
def applyDrop : Bool → String → Schema → Schema
  | true, _, st => st
  | false, name, st => dropTable st name

/-- The row loop of lines 434-470: validate each record's field count
against the sorted column keys, decode its fields, and count the rows
processed so far in this file; a mismatch aborts with the record's
field count and the processed-row count. -/
def copyRows (cols : List String) : List (List String) → Nat → Except (Nat × Nat) (List DbRow)
  | [], _ => .ok []
  | record :: rest, n =>
    if record.length ≠ cols.length then .error (record.length, n)
    else
      match copyRows cols rest (n + 1) with
      | .error e => .error e
      | .ok staged => .ok (record.map decodeField :: staged)

/-- The file loop of lines 413-473: open, decompress and stream each
load file into the staging table; any failure aborts the whole load. -/
def processFiles (cols : List String) : List LTFile → Except LoadErr (List DbRow)
  | [] => .ok []
  | f :: fs =>
    if !f.openOk then .error .fileOpen
    else if !f.gzipOk then .error .gzipRead
    else
      match copyRows cols f.rows 0 with
      | .error (csvCols, n) => .error (.csvMismatch csvCols cols.length n)
      | .ok staged =>
        match processFiles cols fs with
        | .error e => .error e
        | .ok rest => .ok (staged ++ rest)

/-- `loadTable` (lines 361-539): returns the schema after the call and
the error, if any. -/
def loadTableM (env : LTEnv) (tableName : String) (sortedColumnKeys : List String)
    (files : List LTFile) (skipTempTableDelete : Bool) (stagingTableName : String)
    (st : Schema) : Schema × Option LoadErr :=
  if !env.searchPathOk then (st, some .searchPath)
  else if !env.downloadOk then (st, some .download)
  else if !env.beginOk then (st, some .beginTx)
  else if !env.createOk then (st, some .createStaging)
  else if !env.prepareOk then
    (applyDrop skipTempTableDelete stagingTableName st, some .copyInPrepare)
  else
    match processFiles sortedColumnKeys files with
    | .error e => (applyDrop skipTempTableDelete stagingTableName st, some e)
    | .ok staged =>
      if !env.flushOk then (applyDrop skipTempTableDelete stagingTableName st, some .flushCopy)
      else if !env.deleteOk then
        (applyDrop skipTempTableDelete stagingTableName st, some .deleteDedup)
      else if !env.insertOk then
        (applyDrop skipTempTableDelete stagingTableName st, some .insertDedup)
      else if !env.commitOk then
        (applyDrop skipTempTableDelete stagingTableName st, some .commitTx)
      else
        (applyDrop skipTempTableDelete stagingTableName
          (setTable (setTable st stagingTableName staged) tableName
            (mergeStaged tableName sortedColumnKeys (getTable st tableName) staged)), none)

theorem lookup_dropTable_self (st : Schema) (name : String) :
    (dropTable st name).lookup name = none := by
  induction st with
  | nil => rfl
  | cons p ps ih =>
    unfold dropTable at ih ⊢
    rw [List.filter_cons]
    by_cases hp : p.1 = name
    · rw [if_neg (by simp [hp])]
      exact ih
    · rw [if_pos (by simp [hp])]
      rcases p with ⟨k, v⟩
      simp only [List.lookup]
      rw [show (name == k) = false from beq_eq_false_iff_ne.mpr fun hc => hp hc.symm]
      exact ih

theorem lookup_dropTable_other (st : Schema) (t name : String) (h : t ≠ name) :
    (dropTable st name).lookup t = st.lookup t := by
  induction st with
  | nil => rfl
  | cons p ps ih =>
    unfold dropTable at ih ⊢
    rw [List.filter_cons]
    rcases p with ⟨k, v⟩
    by_cases hp : k = name
    · rw [if_neg (by simp [hp])]
      simp only [List.lookup]
      rw [show (t == k) = false from beq_eq_false_iff_ne.mpr fun hc => h (hc.trans hp)]
      exact ih
    · rw [if_pos (by simp [hp])]
      simp only [List.lookup]
      by_cases ht : t = k
      · rw [show (t == k) = true from beq_iff_eq.mpr ht]
      · rw [show (t == k) = false from beq_eq_false_iff_ne.mpr ht]
        exact ih

theorem copyRows_ok (cols : List String) :
    ∀ (rows : List (List String)) (n : Nat),
      (∀ r ∈ rows, r.length = cols.length) →
      ∃ out, copyRows cols rows n = .ok out := by
  intro rows
  induction rows with
  | nil => intro n _; exact ⟨[], rfl⟩
  | cons r rs ih =>
    intro n h
    obtain ⟨out, hout⟩ := ih (n + 1) fun x hx => h x (List.mem_cons_of_mem r hx)
    refine ⟨r.map decodeField :: out, ?_⟩
    unfold copyRows
    rw [if_neg (by simp [h r (List.mem_cons_self r rs)]), hout]

theorem copyRows_mismatch (cols : List String) (bad : List String)
    (hbad : bad.length ≠ cols.length) :
    ∀ (good rest : List (List String)) (n : Nat),
      (∀ r ∈ good, r.length = cols.length) →
      copyRows cols (good ++ bad :: rest) n = .error (bad.length, n + good.length) := by
  intro good
  induction good with
  | nil =>
    intro rest n _
    show copyRows cols (bad :: rest) n = _
    unfold copyRows
    rw [if_pos hbad]
    simp
  | cons g gs ih =>
    intro rest n hgood
    rw [List.cons_append]
    unfold copyRows
    rw [if_neg (by simp [hgood g (List.mem_cons_self g gs)])]
    rw [ih rest (n + 1) fun r hr => hgood r (List.mem_cons_of_mem g hr)]
    have harith : n + 1 + gs.length = n + (g :: gs).length := by
      simp [List.length_cons]
      omega
    rw [harith]

theorem processFiles_mismatch_file (cols : List String) (f : LTFile) (fs : List LTFile)
    (good : List (List String)) (bad : List String) (rest : List (List String))
    (ho : f.openOk = true) (hg : f.gzipOk = true)
    (hrows : f.rows = good ++ bad :: rest)
    (hgood : ∀ r ∈ good, r.length = cols.length)
    (hbad : bad.length ≠ cols.length) :
    processFiles cols (f :: fs)
      = .error (.csvMismatch bad.length cols.length good.length) := by
  unfold processFiles
  rw [ho, hg]
  simp only [Bool.not_true, Bool.false_eq_true, if_false]
  rw [hrows, copyRows_mismatch cols bad hbad good rest 0 hgood]
  simp

theorem processFiles_error_through_clean (cols : List String) :
    ∀ (pre fs : List LTFile) (e : LoadErr),
      (∀ g ∈ pre, g.openOk = true ∧ g.gzipOk = true ∧ ∀ r ∈ g.rows, r.length = cols.length) →
      processFiles cols fs = .error e →
      processFiles cols (pre ++ fs) = .error e := by
  intro pre
  induction pre with
  | nil => intro fs e _ h; simpa using h
  | cons g gs ih =>
    intro fs e hclean herr
    obtain ⟨ho, hgz, hrows⟩ := hclean g (List.mem_cons_self g gs)
    rw [List.cons_append]
    unfold processFiles
    rw [ho, hgz]
    simp only [Bool.not_true, Bool.false_eq_true, if_false]
    obtain ⟨out, hout⟩ := copyRows_ok cols g.rows 0 hrows
    rw [hout, ih fs e (fun x hx => hclean x (List.mem_cons_of_mem g hx)) herr]

/-- C2: a row whose field count differs from the sorted upload-schema
column count aborts the whole load with a column-count-mismatch error
reporting the number of rows of that file processed before the
mismatch, the transaction is rolled back, and the destination table is
left unchanged. -/
theorem loadTable_csv_mismatch_aborts
    (env : LTEnv) (tableName : String) (cols : List String)
    (pre post : List LTFile) (f : LTFile) (good : List (List String)) (bad : List String)
    (rest : List (List String)) (skip : Bool) (stagingTableName : String) (st : Schema)
    (henv : env.searchPathOk = true ∧ env.downloadOk = true ∧ env.beginOk = true
      ∧ env.createOk = true ∧ env.prepareOk = true)
    (hpre : ∀ g ∈ pre, g.openOk = true ∧ g.gzipOk = true
      ∧ ∀ r ∈ g.rows, r.length = cols.length)
    (ho : f.openOk = true) (hg : f.gzipOk = true)
    (hrows : f.rows = good ++ bad :: rest)
    (hgood : ∀ r ∈ good, r.length = cols.length)
    (hbad : bad.length ≠ cols.length)
    (htname : tableName ≠ stagingTableName) :
    (loadTableM env tableName cols (pre ++ f :: post) skip stagingTableName st).2
      = some (.csvMismatch bad.length cols.length good.length)
    ∧ ((loadTableM env tableName cols (pre ++ f :: post) skip stagingTableName st).1).lookup
        tableName = st.lookup tableName := by
  obtain ⟨h1, h2, h3, h4, h5⟩ := henv
  have herr : processFiles cols (pre ++ f :: post)
      = .error (.csvMismatch bad.length cols.length good.length) :=
    processFiles_error_through_clean cols pre (f :: post) _ hpre
      (processFiles_mismatch_file cols f post good bad rest ho hg hrows hgood hbad)
  unfold loadTableM
  rw [h1, h2, h3, h4, h5, herr]
  simp only [Bool.not_true, Bool.false_eq_true, if_false]
  refine ⟨by trivial, ?_⟩
  cases skip with
  | true => rfl
  | false => exact lookup_dropTable_other st tableName stagingTableName htname

/-- C2 witness: a two-column table file whose second row has one field;
the load aborts with the mismatch error reporting one processed row and
the destination is untouched. -/
theorem loadTable_csv_mismatch_aborts_witness :
    (loadTableM ⟨true, true, true, true, true, true, true, true, true⟩ "pages"
        ["id", "received_at"] [⟨true, true, [["1", "2021-01-01"], ["2"]]⟩] false
        "rudder_staging_1" [("pages", [[some "9", some "2020-01-01"]])]).2
      = some (.csvMismatch 1 2 1)
    ∧ ((loadTableM ⟨true, true, true, true, true, true, true, true, true⟩ "pages"
        ["id", "received_at"] [⟨true, true, [["1", "2021-01-01"], ["2"]]⟩] false
        "rudder_staging_1" [("pages", [[some "9", some "2020-01-01"]])]).1).lookup "pages"
      = ([("pages", [[some "9", some "2020-01-01"]])] : Schema).lookup "pages" :=
  loadTable_csv_mismatch_aborts
    ⟨true, true, true, true, true, true, true, true, true⟩ "pages" ["id", "received_at"]
    [] [] ⟨true, true, [["1", "2021-01-01"], ["2"]]⟩ [["1", "2021-01-01"]] ["2"] []
    false "rudder_staging_1" [("pages", [[some "9", some "2020-01-01"]])]
    (by decide) (by intro g hgm; simp at hgm) rfl rfl rfl
    (by intro r hr; simp at hr; rw [hr]; rfl) (by decide) (by decide)

/-- C4: when the caller did not ask to skip staging-table cleanup, the
staging table created by the load attempt does not exist in the schema
when `loadTable` returns, on every success and failure path. -/
theorem loadTable_staging_dropped
    (env : LTEnv) (tableName : String) (cols : List String) (files : List LTFile)
    (stagingTableName : String) (st : Schema)
    (hfresh : st.lookup stagingTableName = none) :
    ((loadTableM env tableName cols files false stagingTableName st).1).lookup
      stagingTableName = none := by
  have key : (loadTableM env tableName cols files false stagingTableName st).1 = st
      ∨ ∃ st', (loadTableM env tableName cols files false stagingTableName st).1
          = dropTable st' stagingTableName := by
    unfold loadTableM
    repeat' split
    all_goals first
      | exact Or.inl rfl
      | exact Or.inr ⟨_, rfl⟩
  rcases key with h | ⟨st', h⟩
  · rw [h]; exact hfresh
  · rw [h]; exact lookup_dropTable_self st' stagingTableName

/-- C4 witness: a fully successful load with cleanup not skipped leaves
no staging table in the schema. -/
theorem loadTable_staging_dropped_witness :
    ((loadTableM ⟨true, true, true, true, true, true, true, true, true⟩ "pages"
        ["id", "received_at"] [⟨true, true, [["1", "2021-01-01"]]⟩] false
        "rudder_staging_1" [("pages", [])]).1).lookup "rudder_staging_1" = none :=
  loadTable_staging_dropped ⟨true, true, true, true, true, true, true, true, true⟩
    "pages" ["id", "received_at"] [⟨true, true, [["1", "2021-01-01"]]⟩]
    "rudder_staging_1" [("pages", [])] (by decide)

/-- C5: the classification table maps host-lookup failure, missing
database/relation, database starting up or shutting down, and
recovery-mode write rejection to resource-not-found; connection
refused, password authentication failure, and permission denied to
permission; the 1600-column limit to column-count; an unmatched text to
the unclassified kind; and overlapping matches resolve
first-match-wins in the table order. -/
theorem errorsMappings_classification :
    classify "dial tcp: lookup somehost.example.com: no such host" = .resourceNotFound
    ∧ classify "pq: database \"wh\" does not exist" = .resourceNotFound
    ∧ classify "pq: the database system is starting up" = .resourceNotFound
    ∧ classify "pq: the database system is shutting down" = .resourceNotFound
    ∧ classify "pq: relation \"tbl\" does not exist" = .resourceNotFound
    ∧ classify "pq: cannot set transaction read-write mode during recovery" = .resourceNotFound
    ∧ classify "dial tcp 10.0.0.1:5432: connect: connection refused" = .permission
    ∧ classify "pq: password authentication failed for user \"rudder\"" = .permission
    ∧ classify "pq: permission denied for schema public" = .permission
    ∧ classify "pq: tables can have at most 1600 columns" = .columnCount
    ∧ classify "some totally unrelated failure" = .unclassified
    ∧ classify "pq: relation \"pq: permission denied\" does not exist" = .resourceNotFound := by
  decide

/-! ### Crash recovery sweep (`dropDanglingStagingTables`, lines 841-884)

`CrashRecover` (lines 837-839) simply invokes the sweep.  The candidate
query selects the namespace's table names `LIKE '<stagingPfx>%'`; each
candidate is dropped in turn, an individual drop failure only clears
the success flag and the loop continues. -/

/-- The drop loop of lines 875-882 over the candidate list, carrying
the remaining schema and the `delSuccess` flag. -/
def sweepDrops (dropOk : String → Bool) : List String → List String → Bool → List String × Bool
  | [], ns, ok => (ns, ok)
  | c :: cs, ns, ok =>
    if dropOk c then sweepDrops dropOk cs (ns.filter fun t => t != c) ok
    else sweepDrops dropOk cs ns false

def dropDanglingStagingTables (queryOk : Bool) (stagingPfx : String)
    (dropOk : String → Bool) (tables : List String) : List String × Bool :=
  if !queryOk then (tables, false)
  else sweepDrops dropOk (tables.filter fun t => litHere stagingPfx.toList t.toList) tables true

/-- `CrashRecover` (lines 837-839). -/
def CrashRecover (queryOk : Bool) (stagingPfx : String) (dropOk : String → Bool)
    (tables : List String) : List String :=
  (dropDanglingStagingTables queryOk stagingPfx dropOk tables).1

theorem sweepDrops_subset (dropOk : String → Bool) :
    ∀ (cands ns : List String) (ok : Bool) (t : String),
      t ∈ (sweepDrops dropOk cands ns ok).1 → t ∈ ns := by
  intro cands
  induction cands with
  | nil => intro ns ok t h; exact h
  | cons c cs ih =>
    intro ns ok t h
    unfold sweepDrops at h
    by_cases hc : dropOk c = true
    · rw [if_pos hc] at h
      exact (List.mem_filter.mp (ih _ _ _ h)).1
    · rw [if_neg hc] at h
      exact ih _ _ _ h

theorem sweepDrops_removes (dropOk : String → Bool) :
    ∀ (cands ns : List String) (ok : Bool) (t : String),
      t ∈ cands → dropOk t = true → t ∉ (sweepDrops dropOk cands ns ok).1 := by
  intro cands
  induction cands with
  | nil => intro ns ok t h; exact absurd h (List.not_mem_nil t)
  | cons c cs ih =>
    intro ns ok t hmem hdrop hres
    unfold sweepDrops at hres
    rcases List.mem_cons.mp hmem with rfl | hcs
    · rw [if_pos hdrop] at hres
      have := sweepDrops_subset dropOk cs _ ok t hres
      simp at this
    · by_cases hc : dropOk c = true
      · rw [if_pos hc] at hres
        exact ih _ _ t hcs hdrop hres
      · rw [if_neg hc] at hres
        exact ih _ _ t hcs hdrop hres

theorem sweepDrops_keeps (dropOk : String → Bool) :
    ∀ (cands ns : List String) (ok : Bool) (t : String),
      t ∈ ns → t ∉ cands → t ∈ (sweepDrops dropOk cands ns ok).1 := by
  intro cands
  induction cands with
  | nil => intro ns ok t h _; exact h
  | cons c cs ih =>
    intro ns ok t hns hnc
    have htc : t ≠ c := fun h => hnc (h ▸ List.mem_cons_self c cs)
    have hncs : t ∉ cs := fun h => hnc (List.mem_cons_of_mem c h)
    unfold sweepDrops
    by_cases hc : dropOk c = true
    · rw [if_pos hc]
      exact ih _ ok t (List.mem_filter.mpr ⟨hns, by simpa using htc⟩) hncs
    · rw [if_neg hc]
      exact ih _ false t hns hncs

theorem sweepDrops_flag (dropOk : String → Bool) :
    ∀ (cands ns : List String) (ok : Bool),
      (sweepDrops dropOk cands ns ok).2 = (ok && cands.all dropOk) := by
  intro cands
  induction cands with
  | nil => intro ns ok; simp [sweepDrops]
  | cons c cs ih =>
    intro ns ok
    unfold sweepDrops
    by_cases hc : dropOk c = true
    · rw [if_pos hc, ih]
      simp [hc]
    · rw [if_neg hc, ih]
      simp [Bool.eq_false_iff.mpr hc]

/-- C6: the crash-recovery sweep leaves every non-matching table
intact, drops every staging-prefixed table whose drop succeeds even
when other drops fail, and reports success exactly when the candidate
query and every individual drop succeeded. -/
theorem dropDanglingStagingTables_spec
    (queryOk : Bool) (stagingPfx : String) (dropOk : String → Bool) (tables : List String) :
    (∀ t ∈ tables, ¬ litHere stagingPfx.toList t.toList = true →
      t ∈ (dropDanglingStagingTables queryOk stagingPfx dropOk tables).1)
    ∧ (queryOk = true → ∀ t ∈ tables, litHere stagingPfx.toList t.toList = true →
        dropOk t = true → t ∉ (dropDanglingStagingTables queryOk stagingPfx dropOk tables).1)
    ∧ (dropDanglingStagingTables queryOk stagingPfx dropOk tables).2
        = (queryOk && (tables.filter fun t => litHere stagingPfx.toList t.toList).all dropOk) := by
  cases queryOk with
  | false =>
    refine ⟨fun t ht _ => ?_, fun h => absurd h (by simp), ?_⟩
    · simpa [dropDanglingStagingTables] using ht
    · simp [dropDanglingStagingTables]
  | true =>
    unfold dropDanglingStagingTables
    simp only [Bool.not_true, Bool.false_eq_true, if_false]
    refine ⟨?_, ?_, ?_⟩
    · intro t ht hmatch
      exact sweepDrops_keeps dropOk _ tables true t ht
        fun hc => hmatch (List.mem_filter.mp hc).2
    · intro _ t ht hmatch hdrop
      exact sweepDrops_removes dropOk _ tables true t
        (List.mem_filter.mpr ⟨ht, hmatch⟩) hdrop
    · rw [sweepDrops_flag]

/-- C6 witness: with two staging tables, one of which fails to drop,
and one unrelated table: the unrelated table survives, the droppable
staging table is removed, and the sweep reports failure. -/
theorem dropDanglingStagingTables_spec_witness :
    "users" ∈ (dropDanglingStagingTables true "rudder_staging_"
        (fun t => t != "rudder_staging_b")
        ["rudder_staging_a", "rudder_staging_b", "users"]).1
    ∧ "rudder_staging_a" ∉ (dropDanglingStagingTables true "rudder_staging_"
        (fun t => t != "rudder_staging_b")
        ["rudder_staging_a", "rudder_staging_b", "users"]).1
    ∧ (dropDanglingStagingTables true "rudder_staging_"
        (fun t => t != "rudder_staging_b")
        ["rudder_staging_a", "rudder_staging_b", "users"]).2 = false :=
  ⟨(dropDanglingStagingTables_spec true "rudder_staging_"
      (fun t => t != "rudder_staging_b")
      ["rudder_staging_a", "rudder_staging_b", "users"]).1 "users" (by decide) (by decide),
   (dropDanglingStagingTables_spec true "rudder_staging_"
      (fun t => t != "rudder_staging_b")
      ["rudder_staging_a", "rudder_staging_b", "users"]).2.1 rfl "rudder_staging_a"
      (by decide) (by decide) (by decide),
   ((dropDanglingStagingTables_spec true "rudder_staging_"
      (fun t => t != "rudder_staging_b")
      ["rudder_staging_a", "rudder_staging_b", "users"]).2.2).trans (by decide)⟩

/-! ### Rollback supervisor (`runRollbackWithTimeout`, lines 343-359)

The function starts the rollback in a goroutine and `select`s on its
completion channel against `time.After(d)`.  The outcome of that race
is injected as `completesInTime`; the goroutine's error logging, the
timeout metric emission (`handleRollbackTimeout`, lines 339-341) and
the — nonexistent — return value are the observables. -/

structure RollbackOutcome where
  returnedErr : Option String
  loggedErr : Option String
  onTimeoutCalled : Bool
  deriving DecidableEq, Repr

def runRollbackWithTimeout (rollbackErr : Option String) (completesInTime : Bool) :
    RollbackOutcome :=
  if completesInTime then
    { returnedErr := none, loggedErr := rollbackErr, onTimeoutCalled := false }
  else
    { returnedErr := none, loggedErr := none, onTimeoutCalled := true }

/-- C9: the rollback supervisor never propagates an error; the timeout
metric callback fires exactly when the rollback misses the deadline;
and an in-time rollback's error is (only) logged. -/
theorem runRollbackWithTimeout_contract (rollbackErr : Option String)
    (completesInTime : Bool) :
    (runRollbackWithTimeout rollbackErr completesInTime).returnedErr = none
    ∧ (runRollbackWithTimeout rollbackErr completesInTime).onTimeoutCalled
        = !completesInTime
    ∧ (completesInTime = true →
        (runRollbackWithTimeout rollbackErr completesInTime).loggedErr = rollbackErr) := by
  cases completesInTime <;> simp [runRollbackWithTimeout]

/-- C9 witness: a failing rollback that completes in time is logged,
not returned, and fires no timeout metric. -/
theorem runRollbackWithTimeout_contract_witness :
    (runRollbackWithTimeout (some "rollback failed") true).returnedErr = none
    ∧ (runRollbackWithTimeout (some "rollback failed") true).onTimeoutCalled = !true
    ∧ (true = true →
        (runRollbackWithTimeout (some "rollback failed") true).loggedErr
          = some "rollback failed") :=
  runRollbackWithTimeout_contract (some "rollback failed") true

/-! ### `loadUserTables` result map (lines 571-714)

The error map starts as `{identifies: nil}`; every failure path either
records its error under the table it belongs to and returns, and the
`users` key is added only after the identifies load succeeded and the
upload's users schema turned out non-empty. -/

def loadUserTablesResult (searchPathErr identifiesErr : Option String)
    (usersSchemaEmpty skipUserTraits : Bool)
    (usersDirectErr unionCreateErr computeCreateErr beginErr deleteErr insertErr commitErr :
      Option String) : List (String × Option String) :=
  match searchPathErr with
  | some e => [(identifiesTable, some e)]
  | none =>
    match identifiesErr with
    | some e => [(identifiesTable, some e)]
    | none =>
      if usersSchemaEmpty then [(identifiesTable, none)]
      else if skipUserTraits then [(identifiesTable, none), (usersTable, usersDirectErr)]
      else
        match unionCreateErr with
        | some e => [(identifiesTable, none), (usersTable, some e)]
        | none =>
          match computeCreateErr with
          | some e => [(identifiesTable, none), (usersTable, some e)]
          | none =>
            match beginErr with
            | some e => [(identifiesTable, none), (usersTable, some e)]
            | none =>
              match deleteErr with
              | some e => [(identifiesTable, none), (usersTable, some e)]
              | none =>
                match insertErr with
                | some e => [(identifiesTable, none), (usersTable, some e)]
                | none =>
                  match commitErr with
                  | some e => [(identifiesTable, none), (usersTable, some e)]
                  | none => [(identifiesTable, none), (usersTable, none)]

/-- C10: the result map of `loadUserTables` always carries the
identifies key, and carries the users key exactly when the identifies
load (including the initial search-path update) succeeded and the
upload's users schema is non-empty. -/
theorem loadUserTables_result_keys
    (searchPathErr identifiesErr : Option String) (usersSchemaEmpty skipUserTraits : Bool)
    (usersDirectErr unionCreateErr computeCreateErr beginErr deleteErr insertErr commitErr :
      Option String) :
    (∃ v, (loadUserTablesResult searchPathErr identifiesErr usersSchemaEmpty skipUserTraits
        usersDirectErr unionCreateErr computeCreateErr beginErr deleteErr insertErr
        commitErr).lookup identifiesTable = some v)
    ∧ (((loadUserTablesResult searchPathErr identifiesErr usersSchemaEmpty skipUserTraits
        usersDirectErr unionCreateErr computeCreateErr beginErr deleteErr insertErr
        commitErr).lookup usersTable).isSome
      ↔ searchPathErr = none ∧ identifiesErr = none ∧ usersSchemaEmpty = false) := by
  have husers : (usersTable == identifiesTable) = false := by decide
  cases searchPathErr with
  | some e => simp [loadUserTablesResult, List.lookup, husers]
  | none =>
    cases identifiesErr with
    | some e => simp [loadUserTablesResult, List.lookup, husers]
    | none =>
      cases usersSchemaEmpty with
      | true => simp [loadUserTablesResult, List.lookup, husers]
      | false =>
        cases skipUserTraits <;>
          cases unionCreateErr <;> cases computeCreateErr <;> cases beginErr <;>
          cases deleteErr <;> cases insertErr <;> cases commitErr <;>
          simp [loadUserTablesResult, List.lookup, husers]

/-! ### Identity resolution merge (`loadUserTables`, lines 601-658)

The union staging table (lines 624-631) collects existing users rows
whose key appears among the identify staging rows' non-null `user_id`s
together with all identify staging rows with a non-null `user_id`
(whose `user_id` lands in the union table's `id` column), and the
computed users staging table (lines 613-621, 640-651) fills every
non-key attribute column with the per-column subquery

```sql
select "<col>" from <union> as staging_table
where x.id = staging_table.id and "<col>" is not null
order by received_at desc limit 1
```

Timestamps are modelled as naturals; rows carry their attribute columns
as an association list. -/

structure URow where
  id : Option String
  attrs : List (String × Option String)
  receivedAt : Nat
  deriving DecidableEq, Repr

structure IRow where
  userId : Option String
  attrs : List (String × Option String)
  receivedAt : Nat
  deriving DecidableEq, Repr

def getAttr (r : URow) (c : String) : Option String :=
  match r.attrs.lookup c with
  | some v => v
  | none => none

/-- The union staging table of lines 624-631 (`UNION` deduplication is
immaterial to the most-recent-non-null computation and is not
modelled). -/
def buildUnion (users : List URow) (identifyStaging : List IRow) : List URow :=
  (users.filter fun x =>
      identifyStaging.any fun i => i.userId.isSome && i.userId == x.id)
    ++ identifyStaging.filterMap fun i =>
        if i.userId.isSome then some ⟨i.userId, i.attrs, i.receivedAt⟩ else none

/-- The per-column correlated subquery of lines 613-620: among the
union rows of this key with a non-null value in the column, the value
of the row with the greatest `received_at`. -/
def latestNonNull (unionRows : List URow) (k : String) (c : String) : Option String :=
  match (sortDesc (fun a b => decide (a.receivedAt ≤ b.receivedAt))
      (unionRows.filter fun r => r.id == some k && (getAttr r c).isSome)).head? with
  | some r => getAttr r c
  | none => none

/-- The most-recent-non-null subquery evaluated over any union-table
contents: when the timestamps are pairwise distinct, it returns the
value of the unique row of the key that is non-null in the column and
latest among such rows. -/
theorem latestNonNull_spec (u : List URow) (k c : String)
    (hdist : u.Pairwise fun a b => a.receivedAt ≠ b.receivedAt)
    (rStar : URow) (hmem : rStar ∈ u)
    (hid : rStar.id = some k) (hnn : (getAttr rStar c).isSome = true)
    (hmax : ∀ r ∈ u,
      r.id = some k → (getAttr r c).isSome = true → r.receivedAt ≤ rStar.receivedAt) :
    latestNonNull u k c = getAttr rStar c := by
  classical
  unfold latestNonNull
  set le : URow → URow → Bool := fun a b => decide (a.receivedAt ≤ b.receivedAt) with hle
  have htot : ∀ a b : URow, le a b = true ∨ le b a = true := by
    intro a b
    rcases Nat.le_total a.receivedAt b.receivedAt with h | h
    · exact Or.inl (decide_eq_true h)
    · exact Or.inr (decide_eq_true h)
  have htr : ∀ a b c' : URow, le a b = true → le b c' = true → le a c' = true := by
    intro a b c' h1 h2
    exact decide_eq_true (Nat.le_trans (of_decide_eq_true h1) (of_decide_eq_true h2))
  set F := u.filter (fun r => r.id == some k && (getAttr r c).isSome) with hF
  set L := sortDesc le F with hL
  have hrF : rStar ∈ F := List.mem_filter.mpr ⟨hmem, by simp [hid, hnn]⟩
  have hrL : rStar ∈ L := (mem_sortDesc le rStar F).mpr hrF
  rcases hLcase : L with _ | ⟨r₀, L'⟩
  · rw [hLcase] at hrL; simp at hrL
  · have hr₀L : r₀ ∈ L := by rw [hLcase]; exact List.mem_cons_self r₀ L'
    have hr₀F : r₀ ∈ F := (mem_sortDesc le r₀ F).mp hr₀L
    have hr₀u : r₀ ∈ u := (List.mem_filter.mp hr₀F).1
    have hr₀pred := (List.mem_filter.mp hr₀F).2
    have hr₀id : r₀.id = some k := by
      have := (Bool.and_eq_true _ _).mp hr₀pred
      exact beq_iff_eq.mp this.1
    have hr₀nn : (getAttr r₀ c).isSome = true := ((Bool.and_eq_true _ _).mp hr₀pred).2
    have hle₁ : r₀.receivedAt ≤ rStar.receivedAt := hmax r₀ hr₀u hr₀id hr₀nn
    have heq : rStar = r₀ := by
      have hcases : rStar = r₀ ∨ rStar ∈ L' := by
        rw [hLcase] at hrL
        exact List.mem_cons.mp hrL
      rcases hcases with h | h
      · exact h
      · have hpairL : L.Pairwise (fun a b => le b a = true) :=
          pairwise_sortDesc le htot htr F
        rw [hLcase] at hpairL
        have hle₂ : le rStar r₀ = true := (List.pairwise_cons.mp hpairL).1 rStar h
        have hts : rStar.receivedAt = r₀.receivedAt :=
          Nat.le_antisymm (of_decide_eq_true hle₂) hle₁
        by_cases hrr : rStar = r₀
        · exact hrr
        · have hsym : Symmetric (fun a b : URow => a.receivedAt ≠ b.receivedAt) :=
            fun a b hab => hab.symm
          exact absurd hts (hdist.forall hsym hmem hr₀u hrr)
    simp only [List.head?]
    rw [heq]

/-- C7: for each non-key attribute column independently, the computed
users value of a key is the most recent non-null value of that column
among the union of touched existing users rows and new identify rows;
an identify row with a null attribute and a later timestamp therefore
never overwrites an earlier non-null value. -/
theorem loadUserTables_latest_non_null
    (users : List URow) (identifyStaging : List IRow) (k c : String)
    (hdist : (buildUnion users identifyStaging).Pairwise
      fun a b => a.receivedAt ≠ b.receivedAt)
    (rStar : URow) (hmem : rStar ∈ buildUnion users identifyStaging)
    (hid : rStar.id = some k) (hnn : (getAttr rStar c).isSome = true)
    (hmax : ∀ r ∈ buildUnion users identifyStaging,
      r.id = some k → (getAttr r c).isSome = true → r.receivedAt ≤ rStar.receivedAt) :
    latestNonNull (buildUnion users identifyStaging) k c = getAttr rStar c :=
  latestNonNull_spec (buildUnion users identifyStaging) k c hdist rStar hmem hid hnn hmax

/-- C7 witness: identify events `(U, attr = "x", ts 1)` and
`(U, attr = NULL, ts 2)` yield `attr = "x"` for user `U` — the most
recent non-null value wins, not the most recent record. -/
theorem loadUserTables_latest_non_null_witness :
    latestNonNull
      (buildUnion []
        [⟨some "U", [("attr", some "x")], 1⟩, ⟨some "U", [("attr", none)], 2⟩])
      "U" "attr" = some "x" :=
  (loadUserTables_latest_non_null []
      [⟨some "U", [("attr", some "x")], 1⟩, ⟨some "U", [("attr", none)], 2⟩]
      "U" "attr" (by decide) ⟨some "U", [("attr", some "x")], 1⟩
      (by decide) rfl (by decide) (by decide)).trans (by decide)

end PostgresLegacy
